import Mathlib

/-!
Shallow embedding of the obce code-generation core
(src/codegen/src/definition.rs and src/codegen/src/id.rs), together with
proofs about the identifier-derivation, signature-capture and dual-emission
pipeline.
-/

namespace Obce

/-- Modelled from the spec: the name-hash function lives in the crate's
`utils` module (`into_u16` / `into_u32`), which is not among the provided
sources.  Spec section 4.1 requires only a pure, deterministic, stable hash of
the UTF-8 bytes of the name, folded into the target width; the exact algorithm
is an implementation choice.  We model it as a deterministic fold over the
characters of the name. -/
def nameHash (s : String) : Nat :=
  s.data.foldl (fun h c => h * 131 + c.toNat) 0

/-- Modelled from the spec: `utils::into_u32`, the 32-bit name hash. -/
def into_u32 (s : String) : Nat :=
  nameHash s % 2 ^ 32

/-- Modelled from the spec: `utils::into_u16`, the 16-bit name hash. -/
def into_u16 (s : String) : Nat :=
  nameHash s % 2 ^ 16

/-- The literal forms relevant to `find_id` (`syn::Lit`): integer literals,
string literals, and everything else. -/
inductive Lit
  | int (n : Nat)
  | str (s : String)
  | otherLit
deriving DecidableEq

/-- One entry of an attribute argument list (`syn::NestedMeta`): either a
name-value meta such as `id = ...`, or anything else. -/
inductive NestedMeta
  | nameValue (path : String) (lit : Lit)
  | otherMeta
deriving DecidableEq

/-- Attribute argument lists (`syn::AttributeArgs`). -/
abbrev AttributeArgs := List NestedMeta

/-- Compile-time diagnostics produced by the generators (syn::Error values,
identified by their message). -/
inductive CompileError
  | defaultBodyUnsupported
  | onlyMethodsSupported
  | idShouldBeIntOrString
  | u16OutOfRange
  | twoSegmentPathsOnly
deriving DecidableEq

/-- Embedding of `LitInt::base10_parse::<u16>`: succeeds exactly when the
literal's value fits in 16 bits. -/
def base10ParseU16 (n : Nat) : Except CompileError Nat :=
  if n < 2 ^ 16 then .ok n else .error .u16OutOfRange

/-- Embedding of `find_id` (definition.rs, lines 204-220): scan the argument
list for the first `id = ...` name-value entry; an integer literal is parsed
as u16, a string literal is hashed with the 16-bit name hash, anything else
is a hard error.  Later entries are never examined. -/
def find_id : AttributeArgs → Except CompileError (Option Nat)
  | [] => .ok none
  | .nameValue p l :: rest =>
    if p = "id" then
      match l with
      | .int n => (base10ParseU16 n).map some
      | .str s => .ok (some (into_u16 s))
      | .otherLit => .error .idShouldBeIntOrString
    else find_id rest
  | .otherMeta :: rest => find_id rest

/-- Rust types as captured by the generator: an opaque named type, or the
unit type `()` substituted for a missing return type. -/
inductive Ty
  | base (s : String)
  | unit
deriving DecidableEq

/-- Function arguments (`syn::FnArg`): a receiver (`&self`, `&mut self`, ...)
or a typed pattern `pat: ty`. -/
inductive FnArg
  | receiver
  | typed (pat : String) (ty : Ty)
deriving DecidableEq

/-- Return types (`syn::ReturnType`). -/
inductive ReturnType
  | default
  | type (ty : Ty)
deriving DecidableEq

/-- Where-clause predicates: the two synthesized scale bounds, plus opaque
user predicates that may already be present. -/
inductive Pred
  | encodeInput (tys : List Ty)
  | decodeOutput (ty : Ty)
  | userPred (s : String)
deriving DecidableEq

/-- Generics of a method signature; only the where-clause is touched by the
generator. -/
structure Generics where
  where_clause : Option (List Pred)
deriving DecidableEq

/-- Method signature (`syn::Signature`), restricted to the fields the
generator reads. -/
structure Signature where
  ident : String
  generics : Generics
  inputs : List FnArg
  output : ReturnType
deriving DecidableEq

/-- Method bodies: a user-written default body, or the synthesized
ChainExtensionMethod call chain
`build(id).input::<I>().output::<O>().ignore_error_code().call(&(args))`. -/
inductive Block
  | userBody (s : String)
  | inkCall (id : Nat) (input : List Ty) (output : Ty) (bindings : List String)
deriving DecidableEq

/-- An attribute on a trait method (`syn::Attribute`), with its argument list
already parsed. -/
structure Attribute where
  path : String
  args : AttributeArgs
deriving DecidableEq

/-- A trait method declaration (`syn::TraitItemMethod`). -/
structure TraitItemMethod where
  attrs : List Attribute
  sig : Signature
  default : Option Block
deriving DecidableEq

/-- A trait item (`syn::TraitItem`): a method, or any other item kind. -/
inductive TraitItem
  | method (m : TraitItemMethod)
  | otherItem (s : String)
deriving DecidableEq

/-- A trait declaration (`syn::ItemTrait`), restricted to the fields the
generator reads. -/
structure ItemTrait where
  ident : String
  items : List TraitItem
deriving DecidableEq

/-- Embedding of `TraitAttrs::new` (definition.rs, lines 27-39): the trait
identifier is the override found in the macro arguments, else the 16-bit
hash of the trait's name. -/
def TraitAttrs.new (trait_item : ItemTrait) (attrs : AttributeArgs) :
    Except CompileError Nat :=
  match find_id attrs with
  | .error e => .error e
  | .ok v => .ok (v.getD (into_u16 trait_item.ident))

/-- Descriptor data captured per method (the `Method` struct of
definition.rs). -/
structure Method where
  id : Nat
  hash : Nat
  input_tokens : List Ty
  output_tokens : Ty
deriving DecidableEq

/-- Embedding of `Method::new` (definition.rs, lines 50-100): reject default
bodies, strip the obce attributes, derive the id from the first obce
attribute's arguments (falling back to the 16-bit name hash), record the
32-bit name hash, and capture the input tuple and output type.  Returns the
captured descriptor together with the mutated (attribute-stripped) method. -/
def Method.new (method_item : TraitItemMethod) :
    Except CompileError (Method × TraitItemMethod) :=
  match method_item.default with
  | some _ => .error .defaultBodyUnsupported
  | none =>
    let obce_attrs := method_item.attrs.filter fun a => a.path == "obce"
    let other_attrs := method_item.attrs.filter fun a => !(a.path == "obce")
    let idResult : Except CompileError Nat :=
      match obce_attrs.head? with
      | none => .ok (into_u16 method_item.sig.ident)
      | some a =>
        match find_id a.args with
        | .error e => .error e
        | .ok none => .ok (into_u16 method_item.sig.ident)
        | .ok (some v) => .ok v
    match idResult with
    | .error e => .error e
    | .ok id =>
      .ok
        ({ id := id
           hash := into_u32 method_item.sig.ident
           input_tokens := method_item.sig.inputs.filterMap fun a =>
             match a with
             | .typed _ ty => some ty
             | .receiver => none
           output_tokens :=
             match method_item.sig.output with
             | .type ty => ty
             | .default => Ty.unit },
         { method_item with attrs := other_attrs })

/-- Embedding of `Method::fill_with_ink_data` (definition.rs, lines 102-138):
append the Encode bound on the input tuple and the Decode bound on the output
type to the method's where-clause (creating one if absent), and replace the
default body by the synthesized call-building expression over the method's
typed argument bindings. -/
def Method.fill_with_ink_data (m : Method) (method_item : TraitItemMethod) :
    TraitItemMethod :=
  let input_bound := Pred.encodeInput m.input_tokens
  let output_bound := Pred.decodeOutput m.output_tokens
  let newClause : List Pred :=
    match method_item.sig.generics.where_clause with
    | some preds => preds ++ [input_bound, output_bound]
    | none => [input_bound, output_bound]
  let input_bindings := method_item.sig.inputs.filterMap fun a =>
    match a with
    | .typed p _ => some p
    | .receiver => none
  { method_item with
    sig := { method_item.sig with generics := { where_clause := some newClause } }
    default := some (.inkCall m.id m.input_tokens m.output_tokens input_bindings) }

/-- The emitted `ExtensionDescription` impl for `dyn Trait`. -/
structure ExtDesc where
  trait_name : String
  id : Nat
deriving DecidableEq

/-- The emitted `MethodDescription<hash>` impl for `dyn Trait`, exposing
`ID`, `Input` and `Output`. -/
structure MethDesc where
  trait_name : String
  hash : Nat
  id : Nat
  input : List Ty
  output : Ty
deriving DecidableEq

/-- Build-configuration gates: `#[cfg(feature = "...")]`. -/
inductive Cfg
  | feature (s : String)
deriving DecidableEq

/-- Whether a cfg gate is active under a set of enabled cargo features. -/
def cfgActive (features : List String) : Cfg → Bool
  | .feature f => features.contains f

/-- The full output of the definition generator: the extension descriptor
impl, the method descriptor impls (in declaration order), and the two
cfg-gated copies of the trait declaration. -/
structure Output where
  extension : ExtDesc
  methods : List MethDesc
  gated : List (Cfg × ItemTrait)
deriving DecidableEq

/-- Embedding of the per-item loop of `generate` (definition.rs, lines
151-164): each method is processed with `Method::new`, any non-method item is
a hard error, and the first error aborts the collection. -/
def processItems : List TraitItem →
    Except CompileError (List Method × List TraitItem)
  | [] => .ok ([], [])
  | .method m :: rest =>
    match Method.new m with
    | .error e => .error e
    | .ok (d, mNew) =>
      match processItems rest with
      | .error e => .error e
      | .ok (ds, itemsNew) => .ok (d :: ds, .method mNew :: itemsNew)
  | .otherItem _ :: _ => .error .onlyMethodsSupported

/-- Embedding of the zip in `generate` (definition.rs, lines 176-187) that
builds the ink copy: each method item is filled with its captured descriptor
data.  The non-method branch is unreachable whenever `processItems`
succeeded, matching the `unreachable!` in the source. -/
def fillInk : List TraitItem → List Method → List TraitItem
  | [], _ => []
  | its, [] => its
  | .method mi :: its, m :: ms => .method (m.fill_with_ink_data mi) :: fillInk its ms
  | .otherItem s :: its, _ :: ms => .otherItem s :: fillInk its ms

/-- Embedding of `generate` (definition.rs, lines 141-202): derive the trait
id, process all items, then emit the extension descriptor, the method
descriptors, the substrate-gated copy (the attribute-stripped input) and the
ink-gated copy (method bodies and bounds filled in). -/
def generate (attrs : AttributeArgs) (input : ItemTrait) :
    Except CompileError Output :=
  match TraitAttrs.new input attrs with
  | .error e => .error e
  | .ok trait_id =>
    match processItems input.items with
    | .error e => .error e
    | .ok (methods, itemsNew) =>
      let trait_item : ItemTrait := { input with items := itemsNew }
      let ink_trait_item : ItemTrait := { input with items := fillInk itemsNew methods }
      .ok
        { extension := ⟨input.ident, trait_id⟩
          methods := methods.map fun m =>
            ⟨input.ident, m.hash, m.id, m.input_tokens, m.output_tokens⟩
          gated :=
            [(.feature "substrate", trait_item), (.feature "ink", ink_trait_item)] }

/-- The expression emitted by the identifier-lookup macro: a reference to the
extension's `ID` constant, or to a method's `ID` constant keyed by the
recomputed 32-bit hash. -/
inductive IdExpr
  | extensionId (ext : String)
  | methodId (ext : String) (hash : Nat)
deriving DecidableEq

/-- Embedding of `generate` from id.rs (lines 14-44): a one-segment path
refers to the extension's id, a two-segment path refers to the method's id
keyed by the 32-bit hash of the second segment's name, and any other segment
count is a hard error. -/
def id_generate (segments : List String) : Except CompileError IdExpr :=
  match segments with
  | [extension] => .ok (.extensionId extension)
  | [extension, method] => .ok (.methodId extension (into_u32 method))
  | _ => .error .twoSegmentPathsOnly

/-- Resolution of an emitted lookup expression against the descriptor impls
of a generator output: `<dyn T as ExtensionDescription>::ID` resolves through
the (unique) extension impl, `<dyn T as MethodDescription<h>>::ID` resolves
through the method impl whose key hash is `h`. -/
def resolve (out : Output) : IdExpr → Option Nat
  | .extensionId ext =>
    if out.extension.trait_name == ext then some out.extension.id else none
  | .methodId ext h =>
    (out.methods.find? fun d => d.trait_name == ext && d.hash == h).map
      fun d => d.id

/-- Specification-side formulation: the ordered list of declared parameter
types of a method, with the receiver excluded (spec section 4.2). -/
def declaredParamTypes : List FnArg → List Ty
  | [] => []
  | .receiver :: rest => declaredParamTypes rest
  | .typed _ ty :: rest => ty :: declaredParamTypes rest

/-- Specification-side formulation: the literal of the first `id = ...`
entry of an attribute argument list, if any. -/
def firstIdLit : AttributeArgs → Option Lit
  | [] => none
  | .nameValue p l :: rest => if p = "id" then some l else firstIdLit rest
  | .otherMeta :: rest => firstIdLit rest

instance instDecidableEqExcept {ε α : Type} [DecidableEq ε] [DecidableEq α] :
    DecidableEq (Except ε α) := fun x y =>
  match x, y with
  | .ok a, .ok b =>
    if h : a = b then .isTrue (by rw [h])
    else .isFalse (by intro hc; cases hc; exact h rfl)
  | .error a, .error b =>
    if h : a = b then .isTrue (by rw [h])
    else .isFalse (by intro hc; cases hc; exact h rfl)
  | .ok _, .error _ => .isFalse (by intro hc; cases hc)
  | .error _, .ok _ => .isFalse (by intro hc; cases hc)

lemma declaredParamTypes_nil_of_receivers (l : List FnArg)
    (h : ∀ a ∈ l, a = FnArg.receiver) : declaredParamTypes l = [] := by
  induction l with
  | nil => rfl
  | cons a rest ih =>
    have ha := h a (by simp)
    subst ha
    exact ih fun a ha => h a (List.mem_cons_of_mem _ ha)

lemma filterMap_typed_eq_declaredParamTypes (inputs : List FnArg) :
    (inputs.filterMap fun a =>
      match a with
      | .typed _ ty => some ty
      | .receiver => none) = declaredParamTypes inputs := by
  induction inputs with
  | nil => rfl
  | cons a rest ih =>
    cases a <;> simp [declaredParamTypes, List.filterMap_cons, ih]

lemma Method.new_ok (method_item : TraitItemMethod) (m : Method)
    (stripped : TraitItemMethod)
    (h : Method.new method_item = .ok (m, stripped)) :
    method_item.default = none ∧
    m.hash = into_u32 method_item.sig.ident ∧
    m.input_tokens = (method_item.sig.inputs.filterMap fun a =>
      match a with
      | .typed _ ty => some ty
      | .receiver => none) ∧
    m.output_tokens = (match method_item.sig.output with
      | .type ty => ty
      | .default => Ty.unit) ∧
    stripped = { method_item with
      attrs := method_item.attrs.filter fun a => !(a.path == "obce") } := by
  unfold Method.new at h
  cases hdef : method_item.default with
  | some b => rw [hdef] at h; cases h
  | none =>
    rw [hdef] at h
    simp only at h
    split at h
    · cases h
    · cases h
      exact ⟨rfl, rfl, rfl, rfl, rfl⟩

/-- C4: for every method declaration accepted by the signature extractor, the
captured input type is the tuple of its typed parameter types in declaration
order with the receiver excluded (empty tuple when there are none), and the
captured output type is the declared return type, or the unit type when no
return type is declared. -/
theorem signature_capture (method_item : TraitItemMethod) (m : Method)
    (stripped : TraitItemMethod)
    (h : Method.new method_item = .ok (m, stripped)) :
    m.input_tokens = declaredParamTypes method_item.sig.inputs ∧
    ((∀ a ∈ method_item.sig.inputs, a = FnArg.receiver) → m.input_tokens = []) ∧
    m.output_tokens = (match method_item.sig.output with
      | .type ty => ty
      | .default => Ty.unit) := by
  obtain ⟨-, -, hin, hout, -⟩ := Method.new_ok method_item m stripped h
  rw [filterMap_typed_eq_declaredParamTypes] at hin
  refine ⟨hin, ?_, hout⟩
  intro hall
  rw [hin]
  exact declaredParamTypes_nil_of_receivers _ hall

/-- Concrete method declaration used as witness input: a receiver, two typed
parameters and no declared return type. -/
def fooItem : TraitItemMethod :=
  { attrs := []
    sig := { ident := "foo", generics := ⟨none⟩,
             inputs := [.receiver, .typed "x" (.base "u32"),
                        .typed "y" (.base "u64")],
             output := .default }
    default := none }

/-- Concrete captured descriptor for fooItem. -/
def fooMethod : Method :=
  { id := into_u16 "foo", hash := into_u32 "foo",
    input_tokens := [.base "u32", .base "u64"], output_tokens := .unit }

/-- Witness for C4 at the concrete declaration fooItem. -/
theorem signature_capture_witness :
    fooMethod.input_tokens = declaredParamTypes fooItem.sig.inputs ∧
    ((∀ a ∈ fooItem.sig.inputs, a = FnArg.receiver) →
      fooMethod.input_tokens = []) ∧
    fooMethod.output_tokens = (match fooItem.sig.output with
      | .type ty => ty
      | .default => Ty.unit) :=
  signature_capture fooItem fooMethod fooItem (by decide)

/-- C5: for every method declaration, the 32-bit secondary hash used as the
MethodDescription key is derived from the method's name alone; two accepted
methods with the same name get the same hash whatever their attributes or
overrides are. -/
theorem method_hash_name_derived (item1 item2 : TraitItemMethod)
    (m1 m2 : Method) (s1 s2 : TraitItemMethod)
    (h1 : Method.new item1 = .ok (m1, s1))
    (h2 : Method.new item2 = .ok (m2, s2))
    (hname : item1.sig.ident = item2.sig.ident) :
    m1.hash = into_u32 item1.sig.ident ∧
    m2.hash = into_u32 item2.sig.ident ∧
    m1.hash = m2.hash := by
  obtain ⟨-, hh1, -, -, -⟩ := Method.new_ok item1 m1 s1 h1
  obtain ⟨-, hh2, -, -, -⟩ := Method.new_ok item2 m2 s2 h2
  exact ⟨hh1, hh2, by rw [hh1, hh2, hname]⟩

/-- Concrete method declaration used as witness input: same name as barItem
but no override attribute. -/
def barPlainItem : TraitItemMethod :=
  { attrs := []
    sig := { ident := "bar", generics := ⟨none⟩, inputs := [.receiver],
             output := .default }
    default := none }

/-- Concrete method declaration used as witness input: same name as
barPlainItem but with an explicit id override. -/
def barOverrideItem : TraitItemMethod :=
  { attrs := [⟨"obce", [.nameValue "id" (.int 456)]⟩]
    sig := { ident := "bar", generics := ⟨none⟩, inputs := [.receiver],
             output := .default }
    default := none }

/-- Concrete captured descriptor for barPlainItem. -/
def barPlainMethod : Method :=
  { id := into_u16 "bar", hash := into_u32 "bar", input_tokens := [],
    output_tokens := .unit }

/-- Concrete captured descriptor for barOverrideItem. -/
def barOverrideMethod : Method :=
  { id := 456, hash := into_u32 "bar", input_tokens := [],
    output_tokens := .unit }

/-- Witness for C5: the same method name with and without an explicit id
override yields the same secondary hash. -/
theorem method_hash_name_derived_witness :
    barPlainMethod.hash = into_u32 barPlainItem.sig.ident ∧
    barOverrideMethod.hash = into_u32 barOverrideItem.sig.ident ∧
    barPlainMethod.hash = barOverrideMethod.hash :=
  method_hash_name_derived barPlainItem barOverrideItem
    barPlainMethod barOverrideMethod barPlainItem barPlainItem
    (by decide) (by decide) rfl

/-- C6: the identifier-lookup macro rejects every path whose segment count is
neither one nor two, with the hard error naming the supported path shapes,
and emits no identifier reference. -/
theorem lookup_path_shape (segments : List String)
    (h1 : segments.length ≠ 1) (h2 : segments.length ≠ 2) :
    id_generate segments = .error .twoSegmentPathsOnly := by
  match segments with
  | [] => rfl
  | [a] => exact absurd rfl h1
  | [a, b] => exact absurd rfl h2
  | a :: b :: c :: rest => rfl

/-- Witness for C6 at the three-segment path of the failing ui test. -/
theorem lookup_path_shape_witness :
    id_generate ["nested", "Trait", "extension_method"] =
      .error .twoSegmentPathsOnly :=
  lookup_path_shape ["nested", "Trait", "extension_method"]
    (by decide) (by decide)

/-- C7: filling a method with ink data appends exactly the Encode bound on
the input tuple and the Decode bound on the output type to the method's
pre-existing where-clause, preserving every predicate already present; a
method without a where-clause gets one holding exactly those two bounds. -/
theorem ink_bounds_appended (m : Method) (method_item : TraitItemMethod) :
    (m.fill_with_ink_data method_item).sig.generics.where_clause =
      some (method_item.sig.generics.where_clause.getD [] ++
        [Pred.encodeInput m.input_tokens, Pred.decodeOutput m.output_tokens]) := by
  unfold Method.fill_with_ink_data
  cases h : method_item.sig.generics.where_clause <;> simp [h]

lemma find_id_spec (attrs : AttributeArgs) :
    find_id attrs =
      match firstIdLit attrs with
      | none => .ok none
      | some (.int n) =>
        if n < 2 ^ 16 then .ok (some n) else .error .u16OutOfRange
      | some (.str s) => .ok (some (into_u16 s))
      | some .otherLit => .error .idShouldBeIntOrString := by
  induction attrs with
  | nil => rfl
  | cons a rest ih =>
    cases a with
    | otherMeta => simpa [find_id, firstIdLit] using ih
    | nameValue p l =>
      by_cases hp : p = "id"
      · subst hp
        cases l with
        | int n =>
          simp only [find_id, firstIdLit, base10ParseU16, Except.map]
          by_cases hn : n < 65536 <;> simp [hn]
        | str s => simp [find_id, firstIdLit]
        | otherLit => simp [find_id, firstIdLit]
      · simp only [find_id, firstIdLit, if_neg hp]
        exact ih

lemma find_id_of_none (attrs : AttributeArgs) (h : firstIdLit attrs = none) :
    find_id attrs = .ok none := by
  rw [find_id_spec, h]

lemma find_id_of_int (attrs : AttributeArgs) (n : Nat)
    (h : firstIdLit attrs = some (.int n)) :
    find_id attrs =
      if n < 2 ^ 16 then .ok (some n) else .error .u16OutOfRange := by
  rw [find_id_spec, h]

lemma find_id_of_str (attrs : AttributeArgs) (s : String)
    (h : firstIdLit attrs = some (.str s)) :
    find_id attrs = .ok (some (into_u16 s)) := by
  rw [find_id_spec, h]

lemma find_id_of_other (attrs : AttributeArgs)
    (h : firstIdLit attrs = some .otherLit) :
    find_id attrs = .error .idShouldBeIntOrString := by
  rw [find_id_spec, h]

lemma Method.new_id_none (method_item : TraitItemMethod)
    (hdef : method_item.default = none)
    (hobce : (method_item.attrs.filter fun a => a.path == "obce").head? =
      none) :
    (Method.new method_item).map (fun p => p.1.id) =
      .ok (into_u16 method_item.sig.ident) := by
  unfold Method.new
  rw [hdef]
  simp only [hobce]
  simp [Except.map]

lemma Method.new_id_eq (method_item : TraitItemMethod) (attrs : AttributeArgs)
    (hdef : method_item.default = none)
    (hobce : (method_item.attrs.filter fun a => a.path == "obce").head? =
      some ⟨"obce", attrs⟩) :
    (Method.new method_item).map (fun p => p.1.id) =
      match find_id attrs with
      | .error e => .error e
      | .ok none => .ok (into_u16 method_item.sig.ident)
      | .ok (some v) => .ok v := by
  unfold Method.new
  rw [hdef]
  simp only [hobce]
  cases hfi : find_id attrs with
  | error e => simp [hfi, Except.map]
  | ok v => cases v <;> simp [hfi, Except.map]

/-- C2: trait-level and method-level identifier derivation. With an integer
override the identifier is that integer when it fits in 16 bits and a hard
error otherwise; with a string override it is the 16-bit name hash of the
string contents; with no override it is the 16-bit name hash of the trait's
or method's own name — both when the method carries no obce attribute at all
and when its first obce attribute holds no id entry; any other override
literal is a hard error. -/
theorem id_derivation_cases (attrs : AttributeArgs) (tr : ItemTrait)
    (method_item : TraitItemMethod)
    (hdef : method_item.default = none) :
    (firstIdLit attrs = none →
      TraitAttrs.new tr attrs = .ok (into_u16 tr.ident)) ∧
    (∀ n, firstIdLit attrs = some (.int n) → n < 2 ^ 16 →
      TraitAttrs.new tr attrs = .ok n) ∧
    (∀ n, firstIdLit attrs = some (.int n) → 2 ^ 16 ≤ n →
      TraitAttrs.new tr attrs = .error .u16OutOfRange) ∧
    (∀ s, firstIdLit attrs = some (.str s) →
      TraitAttrs.new tr attrs = .ok (into_u16 s)) ∧
    (firstIdLit attrs = some .otherLit →
      TraitAttrs.new tr attrs = .error .idShouldBeIntOrString) ∧
    ((method_item.attrs.filter fun a => a.path == "obce") = [] →
      (Method.new method_item).map (fun p => p.1.id) =
        .ok (into_u16 method_item.sig.ident)) ∧
    ((method_item.attrs.filter fun a => a.path == "obce").head? =
        some ⟨"obce", attrs⟩ →
      (firstIdLit attrs = none →
        (Method.new method_item).map (fun p => p.1.id) =
          .ok (into_u16 method_item.sig.ident)) ∧
      (∀ n, firstIdLit attrs = some (.int n) → n < 2 ^ 16 →
        (Method.new method_item).map (fun p => p.1.id) = .ok n) ∧
      (∀ n, firstIdLit attrs = some (.int n) → 2 ^ 16 ≤ n →
        (Method.new method_item).map (fun p => p.1.id) =
          .error .u16OutOfRange) ∧
      (∀ s, firstIdLit attrs = some (.str s) →
        (Method.new method_item).map (fun p => p.1.id) = .ok (into_u16 s)) ∧
      (firstIdLit attrs = some .otherLit →
        (Method.new method_item).map (fun p => p.1.id) =
          .error .idShouldBeIntOrString)) := by
  refine ⟨?_, ?_, ?_, ?_, ?_, ?_, ?_⟩
  · intro h
    simp [TraitAttrs.new, find_id_of_none attrs h]
  · intro n h hn
    have hfi := find_id_of_int attrs n h
    rw [if_pos hn] at hfi
    simp [TraitAttrs.new, hfi]
  · intro n h hn
    have hfi := find_id_of_int attrs n h
    rw [if_neg (not_lt.mpr hn)] at hfi
    simp [TraitAttrs.new, hfi]
  · intro s h
    simp [TraitAttrs.new, find_id_of_str attrs s h]
  · intro h
    simp [TraitAttrs.new, find_id_of_other attrs h]
  · intro hnone
    have hobce : (method_item.attrs.filter fun a => a.path == "obce").head? =
        none := by rw [hnone]; rfl
    exact Method.new_id_none method_item hdef hobce
  · intro hobce
    have hm := Method.new_id_eq method_item attrs hdef hobce
    refine ⟨?_, ?_, ?_, ?_, ?_⟩
    · intro h
      rw [find_id_of_none attrs h] at hm
      simpa using hm
    · intro n h hn
      have hfi := find_id_of_int attrs n h
      rw [if_pos hn] at hfi
      rw [hfi] at hm
      simpa using hm
    · intro n h hn
      have hfi := find_id_of_int attrs n h
      rw [if_neg (not_lt.mpr hn)] at hfi
      rw [hfi] at hm
      simpa using hm
    · intro s h
      rw [find_id_of_str attrs s h] at hm
      simpa using hm
    · intro h
      rw [find_id_of_other attrs h] at hm
      simpa using hm

/-- Concrete argument list used as witness input for C2: a non-id entry
followed by a string-literal id override. -/
def c2Attrs : AttributeArgs := [.otherMeta, .nameValue "id" (.str "named-ext")]

/-- Concrete trait used as witness input for C2. -/
def c2Trait : ItemTrait := { ident := "Tr", items := [] }

/-- Concrete method declaration used as witness input for C2, carrying the
c2Attrs override in its obce attribute. -/
def c2Item : TraitItemMethod :=
  { attrs := [⟨"obce", c2Attrs⟩]
    sig := { ident := "m", generics := ⟨none⟩, inputs := [.receiver],
             output := .default }
    default := none }

/-- Witness for C2 at the concrete inputs c2Attrs, c2Trait and c2Item. -/
theorem id_derivation_cases_witness :
    (firstIdLit c2Attrs = none →
      TraitAttrs.new c2Trait c2Attrs = .ok (into_u16 c2Trait.ident)) ∧
    (∀ n, firstIdLit c2Attrs = some (.int n) → n < 2 ^ 16 →
      TraitAttrs.new c2Trait c2Attrs = .ok n) ∧
    (∀ n, firstIdLit c2Attrs = some (.int n) → 2 ^ 16 ≤ n →
      TraitAttrs.new c2Trait c2Attrs = .error .u16OutOfRange) ∧
    (∀ s, firstIdLit c2Attrs = some (.str s) →
      TraitAttrs.new c2Trait c2Attrs = .ok (into_u16 s)) ∧
    (firstIdLit c2Attrs = some .otherLit →
      TraitAttrs.new c2Trait c2Attrs = .error .idShouldBeIntOrString) ∧
    ((c2Item.attrs.filter fun a => a.path == "obce") = [] →
      (Method.new c2Item).map (fun p => p.1.id) =
        .ok (into_u16 c2Item.sig.ident)) ∧
    ((c2Item.attrs.filter fun a => a.path == "obce").head? =
        some ⟨"obce", c2Attrs⟩ →
      (firstIdLit c2Attrs = none →
        (Method.new c2Item).map (fun p => p.1.id) =
          .ok (into_u16 c2Item.sig.ident)) ∧
      (∀ n, firstIdLit c2Attrs = some (.int n) → n < 2 ^ 16 →
        (Method.new c2Item).map (fun p => p.1.id) = .ok n) ∧
      (∀ n, firstIdLit c2Attrs = some (.int n) → 2 ^ 16 ≤ n →
        (Method.new c2Item).map (fun p => p.1.id) =
          .error .u16OutOfRange) ∧
      (∀ s, firstIdLit c2Attrs = some (.str s) →
        (Method.new c2Item).map (fun p => p.1.id) = .ok (into_u16 s)) ∧
      (firstIdLit c2Attrs = some .otherLit →
        (Method.new c2Item).map (fun p => p.1.id) =
          .error .idShouldBeIntOrString)) :=
  id_derivation_cases c2Attrs c2Trait c2Item (by decide)

lemma find_id_append_first (pre : AttributeArgs) (l : Lit) (post : AttributeArgs)
    (h : firstIdLit pre = none) :
    find_id (pre ++ NestedMeta.nameValue "id" l :: post) =
      find_id (pre ++ [NestedMeta.nameValue "id" l]) := by
  induction pre with
  | nil => cases l <;> simp [find_id]
  | cons x pre ih =>
    cases x with
    | otherMeta =>
      have h' : firstIdLit pre = none := by simpa [firstIdLit] using h
      simpa [find_id] using ih h'
    | nameValue p l2 =>
      have hp : ¬p = "id" := by
        intro hp
        subst hp
        simp [firstIdLit] at h
      have h' : firstIdLit pre = none := by simpa [firstIdLit, hp] using h
      simpa [find_id, hp] using ih h'

/-- C10: when a method carries several obce attributes, only the first one is
parsed for an id override while all of them are stripped from the emitted
code, and within one argument list only the first `id = ...` entry determines
the identifier — later entries are ignored without any diagnostic. -/
theorem first_obce_attr_wins (method_item : TraitItemMethod) (a : Attribute)
    (arest : List Attribute)
    (hdef : method_item.default = none)
    (hfilter : method_item.attrs.filter (fun x => x.path == "obce") =
      a :: arest) :
    (∀ m stripped, Method.new method_item = .ok (m, stripped) →
      stripped.attrs = method_item.attrs.filter fun x => !(x.path == "obce")) ∧
    ((Method.new method_item).map (fun p => p.1.id) =
      (Method.new { method_item with attrs := [a] }).map (fun p => p.1.id)) ∧
    (∀ pre l post, firstIdLit pre = none →
      find_id (pre ++ NestedMeta.nameValue "id" l :: post) =
        find_id (pre ++ [NestedMeta.nameValue "id" l])) := by
  have hmem : a ∈ method_item.attrs.filter fun x => x.path == "obce" := by
    rw [hfilter]
    exact List.mem_cons_self a arest
  have hpath : a.path = "obce" := by
    have := (List.mem_filter.mp hmem).2
    exact beq_iff_eq.mp this
  refine ⟨?_, ?_, ?_⟩
  · intro m stripped h
    obtain ⟨-, -, -, -, hs⟩ := Method.new_ok method_item m stripped h
    rw [hs]
  · obtain ⟨ap, aargs⟩ := a
    have hap : ap = "obce" := hpath
    subst hap
    have h1 : (method_item.attrs.filter fun x => x.path == "obce").head? =
        some ⟨"obce", aargs⟩ := by rw [hfilter]; rfl
    have h2 : (({ method_item with
        attrs := [⟨"obce", aargs⟩] } : TraitItemMethod).attrs.filter
          fun x => x.path == "obce").head? = some ⟨"obce", aargs⟩ := by rfl
    rw [Method.new_id_eq method_item aargs hdef h1,
      Method.new_id_eq { method_item with attrs := [⟨"obce", aargs⟩] } aargs
        hdef h2]
  · intro pre l post h
    exact find_id_append_first pre l post h

/-- Concrete method declaration used as witness input for C10: two obce
attributes, the first holding two id entries, plus an unrelated attribute. -/
def c10Item : TraitItemMethod :=
  { attrs := [⟨"obce", [.nameValue "id" (.int 5), .nameValue "id" .otherLit]⟩,
              ⟨"docs", []⟩,
              ⟨"obce", [.nameValue "id" (.int 7)]⟩]
    sig := { ident := "m", generics := ⟨none⟩, inputs := [.receiver],
             output := .default }
    default := none }

/-- First obce attribute of c10Item. -/
def c10FirstObce : Attribute :=
  ⟨"obce", [.nameValue "id" (.int 5), .nameValue "id" .otherLit]⟩

/-- Witness for C10 at the concrete declaration c10Item. -/
theorem first_obce_attr_wins_witness :
    (∀ m stripped, Method.new c10Item = .ok (m, stripped) →
      stripped.attrs = c10Item.attrs.filter fun x => !(x.path == "obce")) ∧
    ((Method.new c10Item).map (fun p => p.1.id) =
      (Method.new { c10Item with attrs := [c10FirstObce] }).map
        (fun p => p.1.id)) ∧
    (∀ pre l post, firstIdLit pre = none →
      find_id (pre ++ NestedMeta.nameValue "id" l :: post) =
        find_id (pre ++ [NestedMeta.nameValue "id" l])) :=
  first_obce_attr_wins c10Item c10FirstObce [⟨"obce", [.nameValue "id" (.int 7)]⟩]
    (by decide) (by decide)

lemma Method.new_error_of_default (m : TraitItemMethod)
    (h : m.default.isSome) :
    Method.new m = .error .defaultBodyUnsupported := by
  unfold Method.new
  cases hd : m.default with
  | none => rw [hd] at h; simp at h
  | some b => rfl

lemma processItems_fails_of_default (items : List TraitItem)
    (h : ∃ m, TraitItem.method m ∈ items ∧ m.default.isSome) :
    ∃ e, processItems items = .error e := by
  induction items with
  | nil =>
    obtain ⟨m, hm, -⟩ := h
    simp at hm
  | cons it rest ih =>
    cases it with
    | otherItem s => exact ⟨.onlyMethodsSupported, rfl⟩
    | method m0 =>
      by_cases h0 : m0.default.isSome
      · exact ⟨.defaultBodyUnsupported,
          by simp [processItems, Method.new_error_of_default m0 h0]⟩
      · obtain ⟨m, hm, hms⟩ := h
        have hmr : TraitItem.method m ∈ rest := by
          rcases List.mem_cons.mp hm with heq | hmr
          · cases heq
            exact absurd hms h0
          · exact hmr
        obtain ⟨e, he⟩ := ih ⟨m, hmr, hms⟩
        cases hn : Method.new m0 with
        | error e0 => exact ⟨e0, by simp [processItems, hn]⟩
        | ok p =>
          obtain ⟨d, mNew⟩ := p
          exact ⟨e, by simp [processItems, hn, he]⟩

/-- Counterexample to C3 as stated: this trait contains a method with a
default body, yet the generator fails with the invalid-id-literal diagnostic
raised by the trait-level attributes, not with the unsupported-default-body
error. -/
def c3BodyMethod : TraitItemMethod :=
  { attrs := []
    sig := { ident := "m", generics := ⟨none⟩, inputs := [.receiver],
             output := .default }
    default := some (.userBody "body") }

/-- Concrete trait used in the C3 counterexample and witness. -/
def c3Trait : ItemTrait := { ident := "Tr", items := [.method c3BodyMethod] }

/-- Trait-level arguments with an id override that is neither integer nor
string. -/
def c3BadAttrs : AttributeArgs := [.nameValue "id" .otherLit]

/-- Counterexample for C3: a trait containing a defaulted method on which the
generator fails, but with a different diagnostic than the
unsupported-default-body error the claim requires. -/
theorem default_body_error_counterexample :
    c3Trait.items.head? = some (.method c3BodyMethod) ∧
    c3BodyMethod.default.isSome = true ∧
    generate c3BadAttrs c3Trait = .error .idShouldBeIntOrString ∧
    CompileError.idShouldBeIntOrString ≠ CompileError.defaultBodyUnsupported := by
  decide

lemma processItems_error_first_default (pre : List TraitItem)
    (m : TraitItemMethod) (post : List TraitItem)
    (hm : m.default.isSome)
    (hpre : ∀ it ∈ pre, ∃ mi d stripped,
      it = TraitItem.method mi ∧ Method.new mi = .ok (d, stripped)) :
    processItems (pre ++ TraitItem.method m :: post) =
      .error .defaultBodyUnsupported := by
  induction pre with
  | nil => simp [processItems, Method.new_error_of_default m hm]
  | cons it pre ih =>
    obtain ⟨mi, d, stripped, hit, hok⟩ := hpre it (List.mem_cons_self it pre)
    subst hit
    have hrest := ih fun x hx => hpre x (List.mem_cons_of_mem _ hx)
    simp [processItems, hok, hrest]

/-- C3 amended: whenever some method of the input trait carries a default
body the generator fails and emits zero output declarations; the diagnostic
is the unsupported-default-body error whenever the defaulted method is the
first offending item, that is, when the trait-level attributes are
well-formed and every item before the defaulted method is a method accepted
by the method extractor. -/
theorem default_body_always_fails (attrs : AttributeArgs) (tr : ItemTrait)
    (hbody : ∃ m, TraitItem.method m ∈ tr.items ∧ m.default.isSome) :
    (∃ e, generate attrs tr = .error e) ∧
    (∀ pre m post, tr.items = pre ++ TraitItem.method m :: post →
      m.default.isSome →
      (∃ v, TraitAttrs.new tr attrs = .ok v) →
      (∀ it ∈ pre, ∃ mi d stripped,
        it = TraitItem.method mi ∧ Method.new mi = .ok (d, stripped)) →
      generate attrs tr = .error .defaultBodyUnsupported) := by
  constructor
  · cases hta : TraitAttrs.new tr attrs with
    | error e => exact ⟨e, by simp [generate, hta]⟩
    | ok v =>
      obtain ⟨e, he⟩ := processItems_fails_of_default tr.items hbody
      exact ⟨e, by simp [generate, hta, he]⟩
  · intro pre m post hitems hm hta hpre
    obtain ⟨v, hv⟩ := hta
    have hp : processItems tr.items = .error .defaultBodyUnsupported := by
      rw [hitems]
      exact processItems_error_first_default pre m post hm hpre
    simp [generate, hv, hp]

/-- Concrete valid method preceding the defaulted one in the C3 witness
trait. -/
def c3GoodMethod : TraitItemMethod :=
  { attrs := []
    sig := { ident := "good", generics := ⟨none⟩, inputs := [.receiver],
             output := .default }
    default := none }

/-- Concrete trait for the C3 witness: an accepted method followed by a
method with a default body. -/
def c3wTrait : ItemTrait :=
  { ident := "Tr3", items := [.method c3GoodMethod, .method c3BodyMethod] }

/-- Witness for the amended C3 at the concrete trait c3wTrait, whose
defaulted method is preceded by an accepted method, under well-formed
(empty) trait-level attributes. -/
theorem default_body_always_fails_witness :
    (∃ e, generate [] c3wTrait = .error e) ∧
    (∀ pre m post, c3wTrait.items = pre ++ TraitItem.method m :: post →
      m.default.isSome →
      (∃ v, TraitAttrs.new c3wTrait [] = .ok v) →
      (∀ it ∈ pre, ∃ mi d stripped,
        it = TraitItem.method mi ∧ Method.new mi = .ok (d, stripped)) →
      generate [] c3wTrait = .error .defaultBodyUnsupported) :=
  default_body_always_fails [] c3wTrait ⟨c3BodyMethod, by decide, by decide⟩

lemma generate_ok (attrs : AttributeArgs) (input : ItemTrait) (out : Output)
    (h : generate attrs input = .ok out) :
    ∃ trait_id methods itemsNew,
      TraitAttrs.new input attrs = .ok trait_id ∧
      processItems input.items = .ok (methods, itemsNew) ∧
      out =
        { extension := ⟨input.ident, trait_id⟩
          methods := methods.map fun m =>
            ⟨input.ident, m.hash, m.id, m.input_tokens, m.output_tokens⟩
          gated :=
            [(.feature "substrate", { input with items := itemsNew }),
             (.feature "ink",
              { input with items := fillInk itemsNew methods })] } := by
  cases hta : TraitAttrs.new input attrs with
  | error e => simp [generate, hta] at h
  | ok trait_id =>
    cases hpi : processItems input.items with
    | error e => simp [generate, hta, hpi] at h
    | ok p =>
      obtain ⟨methods, itemsNew⟩ := p
      refine ⟨trait_id, methods, itemsNew, rfl, rfl, ?_⟩
      simp only [generate, hta, hpi] at h
      injection h with h
      exact h.symm

/-- Concrete empty trait used in the C9 counterexample and witness. -/
def c9Trait : ItemTrait := { ident := "Tr", items := [] }

/-- The generator output for c9Trait under empty trait-level attributes. -/
def c9Out : Output :=
  { extension := ⟨"Tr", into_u16 "Tr"⟩
    methods := []
    gated := [(.feature "substrate", c9Trait), (.feature "ink", c9Trait)] }

/-- Counterexample for C9: the two copies are gated on the cargo features
substrate and ink, which are not mutually exclusive — in a build enabling
both features, both copies are active. -/
theorem cfg_gates_counterexample :
    generate [] c9Trait = .ok c9Out ∧
    c9Out.gated.map Prod.fst = [Cfg.feature "substrate", Cfg.feature "ink"] ∧
    (c9Out.gated.filter fun g => cfgActive ["substrate", "ink"] g.1).length
      = 2 := by
  decide

/-- C9 amended: the two emitted copies are gated on the two distinct cargo
feature flags substrate and ink; in any build configuration that does not
enable both of those features at once, at most one copy is active. -/
theorem cfg_gates_distinct_features (attrs : AttributeArgs) (tr : ItemTrait)
    (out : Output) (features : List String)
    (hgen : generate attrs tr = .ok out)
    (hnotboth : ¬(features.contains "substrate" = true ∧
      features.contains "ink" = true)) :
    out.gated.map Prod.fst = [Cfg.feature "substrate", Cfg.feature "ink"] ∧
    (out.gated.filter fun g => cfgActive features g.1).length ≤ 1 := by
  obtain ⟨trait_id, methods, itemsNew, -, -, hout⟩ :=
    generate_ok attrs tr out hgen
  subst hout
  refine ⟨rfl, ?_⟩
  by_cases hs : ("substrate" : String) ∈ features
  · by_cases hi : ("ink" : String) ∈ features
    · exact absurd ⟨by simpa using hs, by simpa using hi⟩ hnotboth
    · simp [cfgActive, hs, hi]
  · by_cases hi : ("ink" : String) ∈ features <;> simp [cfgActive, hs, hi]

/-- Witness for the amended C9: with only the ink feature enabled, exactly
the ink copy is active. -/
theorem cfg_gates_distinct_features_witness :
    c9Out.gated.map Prod.fst = [Cfg.feature "substrate", Cfg.feature "ink"] ∧
    (c9Out.gated.filter fun g => cfgActive ["ink"] g.1).length ≤ 1 :=
  cfg_gates_distinct_features [] c9Trait c9Out ["ink"] (by decide) (by decide)

/-- Sanitization of a method declaration: exactly the attribute stripping
performed by Method::new (the obce attributes are removed, everything else,
including any default body, is untouched). -/
def sanitizeMethod (mi : TraitItemMethod) : TraitItemMethod :=
  { mi with attrs := mi.attrs.filter fun a => !(a.path == "obce") }

/-- Sanitization lifted to item lists. -/
def sanitizeItems (items : List TraitItem) : List TraitItem :=
  items.map fun it =>
    match it with
    | .method mi => .method (sanitizeMethod mi)
    | .otherItem s => .otherItem s

/-- Sanitization lifted to trait declarations. -/
def sanitizeTrait (tr : ItemTrait) : ItemTrait :=
  { tr with items := sanitizeItems tr.items }

/-- Erasure of the fields in which the two emitted copies may diverge: the
method bodies and the method where-clauses. -/
def eraseMethod (mi : TraitItemMethod) : TraitItemMethod :=
  { mi with
    default := none
    sig := { mi.sig with generics := ⟨none⟩ } }

/-- Divergence erasure lifted to item lists. -/
def eraseItems (items : List TraitItem) : List TraitItem :=
  items.map fun it =>
    match it with
    | .method mi => .method (eraseMethod mi)
    | .otherItem s => .otherItem s

/-- Divergence erasure lifted to trait declarations. -/
def eraseDivergence (tr : ItemTrait) : ItemTrait :=
  { tr with items := eraseItems tr.items }

/-- Erasure of method bodies only, the sole divergence the claim allows
between the two emitted copies. -/
def stripDefaultsTrait (tr : ItemTrait) : ItemTrait :=
  { tr with
    items := tr.items.map fun it =>
      match it with
      | .method mi => .method { mi with default := none }
      | .otherItem s => .otherItem s }

lemma processItems_ok_sanitized (items : List TraitItem) (ms : List Method)
    (itemsNew : List TraitItem)
    (h : processItems items = .ok (ms, itemsNew)) :
    itemsNew = sanitizeItems items := by
  induction items generalizing ms itemsNew with
  | nil =>
    simp [processItems] at h
    simp [h.2, sanitizeItems]
  | cons it rest ih =>
    cases it with
    | otherItem s => simp [processItems] at h
    | method mi =>
      cases hn : Method.new mi with
      | error e => simp [processItems, hn] at h
      | ok p =>
        obtain ⟨d, mNew⟩ := p
        cases hp : processItems rest with
        | error e => simp [processItems, hn, hp] at h
        | ok q =>
          obtain ⟨ds, restNew⟩ := q
          simp only [processItems, hn, hp] at h
          injection h with h
          injection h with h1 h2
          subst h2
          obtain ⟨-, -, -, -, hs⟩ := Method.new_ok mi d mNew hn
          rw [hs, ih ds restNew hp]
          rfl

/-- Concrete method declaration used in the C8 counterexample: one typed
parameter, a declared return type, no where-clause. -/
def c8Method : TraitItemMethod :=
  { attrs := []
    sig := { ident := "m", generics := ⟨none⟩,
             inputs := [.receiver, .typed "x" (.base "u32")],
             output := .type (.base "u64") }
    default := none }

/-- Concrete trait used in the C8 counterexample and witness. -/
def c8Trait : ItemTrait := { ident := "Tr8", items := [.method c8Method] }

/-- The generator output for c8Trait under empty trait-level attributes. -/
def c8Out : Output :=
  match generate [] c8Trait with
  | .ok out => out
  | .error _ => { extension := ⟨"", 0⟩, methods := [], gated := [] }

/-- The ink-gated copy emitted for c8Trait: where-clause bounds added and the
body synthesized. -/
def c8Ink : ItemTrait :=
  { ident := "Tr8"
    items := [.method {
      attrs := []
      sig := { ident := "m",
               generics := ⟨some [.encodeInput [.base "u32"],
                                  .decodeOutput (.base "u64")]⟩,
               inputs := [.receiver, .typed "x" (.base "u32")],
               output := .type (.base "u64") }
      default := some (.inkCall (into_u16 "m") [.base "u32"] (.base "u64")
        ["x"]) }] }

/-- Counterexample for C8: for c8Trait the remote-call copy differs from the
host copy not only in method bodies — after erasing every method body the two
copies still differ, because the ink copy also gained where-clause bounds. -/
theorem dual_copy_counterexample :
    generate [] c8Trait = .ok c8Out ∧
    c8Out.gated = [(.feature "substrate", c8Trait), (.feature "ink", c8Ink)] ∧
    stripDefaultsTrait c8Trait ≠ stripDefaultsTrait c8Ink := by
  decide

lemma eraseMethod_fill (m : Method) (mi : TraitItemMethod) :
    eraseMethod (m.fill_with_ink_data mi) = eraseMethod mi :=
  rfl

lemma eraseItems_fillInk (items : List TraitItem) :
    ∀ ms : List Method, eraseItems (fillInk items ms) = eraseItems items := by
  induction items with
  | nil => intro ms; cases ms <;> rfl
  | cons it rest ih =>
    intro ms
    cases ms with
    | nil => cases it <;> rfl
    | cons m ms =>
      cases it with
      | method mi =>
        show TraitItem.method (eraseMethod (m.fill_with_ink_data mi)) ::
            eraseItems (fillInk rest ms) =
          TraitItem.method (eraseMethod mi) :: eraseItems rest
        rw [eraseMethod_fill, ih ms]
      | otherItem s =>
        show TraitItem.otherItem s :: eraseItems (fillInk rest ms) =
          TraitItem.otherItem s :: eraseItems rest
        rw [ih ms]

/-- C8 amended: the host-side copy is the sanitized input declaration (only
the obce attributes stripped, bodies untouched), and the remote-call copy
differs from the host-side copy only in method bodies and method
where-clauses (the synthesized call bodies and the appended Encode and
Decode bounds). -/
theorem dual_copies_divergence (attrs : AttributeArgs) (tr : ItemTrait)
    (out : Output) (hgen : generate attrs tr = .ok out) :
    ∃ hostCopy inkCopy,
      out.gated =
        [(Cfg.feature "substrate", hostCopy), (Cfg.feature "ink", inkCopy)] ∧
      hostCopy = sanitizeTrait tr ∧
      eraseDivergence hostCopy = eraseDivergence inkCopy := by
  obtain ⟨trait_id, methods, itemsNew, -, hpi, hout⟩ :=
    generate_ok attrs tr out hgen
  subst hout
  refine ⟨_, _, rfl, ?_, ?_⟩
  · have hs := processItems_ok_sanitized tr.items methods itemsNew hpi
    simp [sanitizeTrait, hs]
  · simp [eraseDivergence, eraseItems_fillInk]

/-- Witness for the amended C8 at the concrete trait c8Trait. -/
theorem dual_copies_divergence_witness :
    ∃ hostCopy inkCopy,
      c8Out.gated =
        [(Cfg.feature "substrate", hostCopy), (Cfg.feature "ink", inkCopy)] ∧
      hostCopy = sanitizeTrait c8Trait ∧
      eraseDivergence hostCopy = eraseDivergence inkCopy :=
  dual_copies_divergence [] c8Trait c8Out (by decide)

lemma processItems_ok_get (items : List TraitItem) (ms : List Method)
    (itemsNew : List TraitItem)
    (h : processItems items = .ok (ms, itemsNew)) :
    ∀ k mi, items.get? k = some (.method mi) →
      ∃ d stripped, ms.get? k = some d ∧ Method.new mi = .ok (d, stripped) := by
  induction items generalizing ms itemsNew with
  | nil => intro k mi hk; simp at hk
  | cons it rest ih =>
    intro k mi hk
    cases it with
    | otherItem s => simp [processItems] at h
    | method m0 =>
      cases hn : Method.new m0 with
      | error e => simp [processItems, hn] at h
      | ok p =>
        obtain ⟨d0, s0⟩ := p
        cases hp : processItems rest with
        | error e => simp [processItems, hn, hp] at h
        | ok q =>
          obtain ⟨ds, rNew⟩ := q
          simp only [processItems, hn, hp] at h
          injection h with h
          injection h with h1 h2
          subst h1
          cases k with
          | zero =>
            have hm0 : m0 = mi := by simpa using hk
            subst hm0
            exact ⟨d0, s0, rfl, hn⟩
          | succ k =>
            have hk' : rest.get? k = some (.method mi) := by simpa using hk
            exact ih ds rNew hp k mi hk'

lemma find?_of_nodup_hash (l : List MethDesc) (p : MethDesc → Bool)
    (d : MethDesc) (hnd : (l.map fun x => x.hash).Nodup)
    (hmem : d ∈ l) (hpd : p d = true)
    (hkey : ∀ x ∈ l, p x = true → x.hash = d.hash) :
    l.find? p = some d := by
  induction l with
  | nil => simp at hmem
  | cons x t ih =>
    rw [List.map_cons, List.nodup_cons] at hnd
    obtain ⟨hxnot, hndt⟩ := hnd
    by_cases hx : p x
    · have hxd : x = d := by
        rcases List.mem_cons.mp hmem with heq | hdt
        · exact heq.symm
        · exfalso
          have hkx : x.hash = d.hash := hkey x (List.mem_cons_self x t) hx
          exact hxnot (hkx ▸ List.mem_map_of_mem (fun y => y.hash) hdt)
      subst hxd
      exact List.find?_cons_of_pos t hx
    · have hdt : d ∈ t := by
        rcases List.mem_cons.mp hmem with heq | hdt
        · exact absurd (heq ▸ hpd) hx
        · exact hdt
      rw [List.find?_cons_of_neg t hx]
      exact ih hndt hdt fun y hy hpy => hkey y (List.mem_cons_of_mem x hy) hpy

/-- C1: for every interface accepted by the definition emitter (with
pairwise-distinct method hashes, as required for the emitted impls to
coexist), the lookup macro on the one-segment path resolves to exactly the
emitted extension id, and on each two-segment path recomputes exactly the
hash the emitter stored for that method and resolves to exactly that
method's emitted id — including under explicit interface-level or
method-level overrides. -/
theorem lookup_matches_descriptors (attrs : AttributeArgs) (tr : ItemTrait)
    (out : Output) (hgen : generate attrs tr = .ok out)
    (hnodup : (out.methods.map fun d => d.hash).Nodup) :
    (id_generate [tr.ident] = .ok (.extensionId tr.ident) ∧
      resolve out (.extensionId tr.ident) = some out.extension.id) ∧
    (∀ k mi, tr.items.get? k = some (.method mi) →
      ∃ d, out.methods.get? k = some d ∧
        d.hash = into_u32 mi.sig.ident ∧
        id_generate [tr.ident, mi.sig.ident] =
          .ok (.methodId tr.ident d.hash) ∧
        resolve out (.methodId tr.ident d.hash) = some d.id) := by
  obtain ⟨tid, ms, itemsNew, -, hpi, hout⟩ := generate_ok attrs tr out hgen
  subst hout
  constructor
  · exact ⟨rfl, by simp [resolve]⟩
  · intro k mi hk
    obtain ⟨d0, s0, hms, hnew⟩ :=
      processItems_ok_get tr.items ms itemsNew hpi k mi hk
    obtain ⟨-, hhash, -, -, -⟩ := Method.new_ok mi d0 s0 hnew
    refine ⟨⟨tr.ident, d0.hash, d0.id, d0.input_tokens, d0.output_tokens⟩,
      ?_, ?_, ?_, ?_⟩
    · rw [List.get?_map, hms]
      rfl
    · simpa using hhash
    · simp [id_generate, hhash]
    · simp only [resolve]
      rw [find?_of_nodup_hash _ _
        ⟨tr.ident, d0.hash, d0.id, d0.input_tokens, d0.output_tokens⟩
        hnodup ?_ ?_ ?_]
      · rfl
      · have : d0 ∈ ms := List.get?_mem hms
        exact List.mem_map.mpr ⟨d0, this, rfl⟩
      · simp
      · intro x hx hpx
        have := (Bool.and_eq_true _ _).mp hpx
        exact beq_iff_eq.mp this.2

/-- Concrete method declaration used as witness input for C1: a method with
no override. -/
def wFooItem : TraitItemMethod :=
  { attrs := []
    sig := { ident := "foo", generics := ⟨none⟩,
             inputs := [.receiver, .typed "x" (.base "u32")],
             output := .type (.base "u64") }
    default := none }

/-- Concrete method declaration used as witness input for C1: a method with
an explicit id override. -/
def wBarItem : TraitItemMethod :=
  { attrs := [⟨"obce", [.nameValue "id" (.int 456)]⟩]
    sig := { ident := "bar", generics := ⟨none⟩, inputs := [.receiver],
             output := .default }
    default := none }

/-- Concrete trait used as witness input for C1, with an interface-level
override. -/
def wTrait : ItemTrait :=
  { ident := "Trait", items := [.method wFooItem, .method wBarItem] }

/-- Trait-level arguments for the C1 witness: an explicit interface id. -/
def wAttrs : AttributeArgs := [.nameValue "id" (.int 123)]

/-- The generator output for wTrait under wAttrs. -/
def wOut : Output :=
  match generate wAttrs wTrait with
  | .ok out => out
  | .error _ => { extension := ⟨"", 0⟩, methods := [], gated := [] }

/-- Witness for C1 at the concrete trait wTrait (interface override 123,
method bar overridden to 456, method foo not overridden). -/
theorem lookup_matches_descriptors_witness :
    (id_generate [wTrait.ident] = .ok (.extensionId wTrait.ident) ∧
      resolve wOut (.extensionId wTrait.ident) = some wOut.extension.id) ∧
    (∀ k mi, wTrait.items.get? k = some (.method mi) →
      ∃ d, wOut.methods.get? k = some d ∧
        d.hash = into_u32 mi.sig.ident ∧
        id_generate [wTrait.ident, mi.sig.ident] =
          .ok (.methodId wTrait.ident d.hash) ∧
        resolve wOut (.methodId wTrait.ident d.hash) = some d.id) :=
  lookup_matches_descriptors wAttrs wTrait wOut (by decide) (by decide)

end Obce
